import Mathlib

/-!
Verification development for the collaborative-editing core of the
App-Builder repository: the operation synchronization engine
(`CollaborationManager` / `OperationalTransform` in
`assets/js/editor/ComponentCommunicationManager.js`) and the command
history engine (`UndoRedoManager`).

The JavaScript classes are shallowly embedded: mutable object state
becomes explicit state records, method calls become functions from a
state to a state (paired with their return value where the caller
observes it), and `Date.now()` / asynchronous interleavings become
explicit parameters.
-/

set_option maxHeartbeats 1000000
set_option linter.unusedVariables false

namespace AppBuilder

/-- Association-list lookup (the `Map.get` of the JS `Map`s used by the
managers; insertion order is preserved, as in JS). -/
def lookupA {κ α : Type} [DecidableEq κ] : List (κ × α) → κ → Option α
  | [], _ => none
  | (k, v) :: rest, k0 => if k = k0 then some v else lookupA rest k0

/-- Association-list update (`Map.set`): replaces an existing binding in
place or appends a new one. -/
def setA {κ α : Type} [DecidableEq κ] : List (κ × α) → κ → α → List (κ × α)
  | [], k0, v0 => [(k0, v0)]
  | (k, v) :: rest, k0, v0 =>
      if k = k0 then (k0, v0) :: rest else (k, v) :: setA rest k0 v0

/-- Association-list removal (`Map.delete`). -/
def removeA {κ α : Type} [DecidableEq κ] : List (κ × α) → κ → List (κ × α)
  | [], _ => []
  | (k, v) :: rest, k0 => if k = k0 then rest else (k, v) :: removeA rest k0

/-- JS array indexing `a[i]`: `undefined` (here `none`) outside
`0 <= i < a.length`. -/
def listGet {α : Type} (l : List α) (i : Int) : Option α :=
  if 0 ≤ i then l.get? i.toNat else none

/-- JS `a.splice(start)` (no delete-count argument): removes every
element from index `start` to the end and leaves the prefix; a negative
`start` counts from the end, clamped at 0. -/
def spliceKeep {α : Type} (l : List α) (start : Int) : List α :=
  l.take (if start < 0 then ((l.length : Int) + start).toNat else start.toNat)

/-! ## Synchronization engine: data model

A change, as produced by the collaboration layer and consumed by
`applyChange` (`{type, path, value, attributes}` at the change level,
`author` / sequence information at the message level; the spec's
Operation model carries `author` and `localSeq` on the operation). -/

structure Change where
  ctype : String := ""
  path : List Nat := []
  value : String := ""
  author : String := ""
  localSeq : Nat := 0
deriving DecidableEq

namespace OperationalTransform

/-- `OperationalTransform.transform(change, pendingChanges)` from the
source: the body is the placeholder `return change;` — the incoming
change is returned unchanged, whatever the pending local changes are. -/
def transform (change : Change) (pendingChanges : List Change) : Change :=
  change

end OperationalTransform

/-! ## CollaborationManager state

Only the fields the claims touch: the pending-change map, the outbound
change buffer, `lastSyncedVersion`, and observable effects (the list of
changes handed to `applyChange`, and whether a resynchronization was
requested). -/

structure CollabSt where
  pendingChanges : List (Nat × Change) := []
  changeBuffer : List Change := []
  lastSyncedVersion : Nat := 0
  applied : List Change := []
  resyncRequested : Bool := false
deriving DecidableEq

/-- `CollaborationManager.handleRemoteChange({change, author, version})`:
transforms the change against `Array.from(this.pendingChanges.values())`,
applies the transformed change (recorded here in `applied`, since the
`applyInsert`/`applyDelete`/`applyUpdate`/`applyAttributeChange` bodies
are not present under `src/`), and sets `lastSyncedVersion = version`. -/
def handleRemoteChange (st : CollabSt) (change : Change) (version : Nat) : CollabSt :=
  let transformedChange :=
    OperationalTransform.transform change (st.pendingChanges.map Prod.snd)
  { st with
    applied := st.applied ++ [transformedChange]
    lastSyncedVersion := version }

/-- `CollaborationManager.sendMessage(message)`: resolves when
`this.websocket.readyState === WebSocket.OPEN`, otherwise rejects with
`WebSocket not connected`. -/
def sendMessage (socketOpen : Bool) : Except String Unit :=
  if socketOpen then Except.ok () else Except.error "WebSocket not connected"

/-- `CollaborationManager.syncChanges()`: returns at once on an empty
buffer; otherwise copies the buffer, clears it, and awaits
`sendChanges`.  `queuedMeanwhile` are the changes `queueChanges` pushes
into `this.changeBuffer` while the send is awaited.  On rejection the
copied batch is unshifted back onto the front of the buffer and
`requestResync()` is called (`requestResync` has no body under `src/`;
modelled below as the `resyncRequested` flag). -/
def syncChanges (st : CollabSt) (socketOpen : Bool) (queuedMeanwhile : List Change) :
    CollabSt :=
  if st.changeBuffer.isEmpty then st
  else
    let changes := st.changeBuffer
    let bufferDuringAwait : List Change := [] ++ queuedMeanwhile
    match sendMessage socketOpen with
    | Except.ok _ => { st with changeBuffer := bufferDuringAwait }
    | Except.error _ =>
        { st with
          changeBuffer := changes ++ bufferDuringAwait
          resyncRequested := true }

/-! ## Acknowledgement processing (modelled from the spec)

`src/` declares the pending map (`this.pendingChanges = new Map()` in
`setupChangeTracking`) and dispatches `sync` messages to a
`handleSync` that has no body under `src/`; no code under `src/` ever
inserts into or removes from `pendingChanges`. -/

/-- Acknowledgement-processing state.  `pending` is the per-client
pending map ordered by `localSeq`; `deferredAcks` holds
acknowledgements that arrived out of order; `ackOrder` records the
order in which pending operations were acknowledged and removed. -/
structure AckSt where
  pending : List (Nat × Change) := []
  deferredAcks : List (Nat × Nat) := []
  lastSyncedVersion : Nat := 0
  ackOrder : List Nat := []
deriving DecidableEq

/-- Look up the deferred acknowledgement for a sequence number. -/
def findAck : List (Nat × Nat) → Nat → Option Nat
  | [], _ => none
  | (s, v) :: rest, n => if s = n then some v else findAck rest n

/-- Remove the deferred acknowledgement for a sequence number. -/
def removeAck : List (Nat × Nat) → Nat → List (Nat × Nat)
  | [], _ => []
  | (s, v) :: rest, n => if s = n then rest else (s, v) :: removeAck rest n

/-- Modelled from the spec: after the head of the pending set is
acknowledged, deferred acknowledgements that have become contiguous are
drained from the front of the pending set, in `localSeq` order. -/
def drainDeferred :
    List (Nat × Change) → List (Nat × Nat) → Nat → List Nat →
      List (Nat × Change) × List (Nat × Nat) × Nat × List Nat
  | [], defs, lsv, order => ([], defs, lsv, order)
  | (s, c) :: rest, defs, lsv, order =>
      match findAck defs s with
      | some v => drainDeferred rest (removeAck defs s) v (order ++ [s])
      | none => ((s, c) :: rest, defs, lsv, order)

/-- Modelled from the spec: processing one server acknowledgement
`(seq, version)`.  The pending set is emptied strictly in `localSeq`
order: an acknowledgement for the head of the pending set removes it,
advances `lastSyncedVersion`, and drains any deferred acknowledgements
that have become contiguous; an acknowledgement for any later operation
is deferred and changes nothing else (`handleSync` and the
acknowledgement path are absent from `src/`, so this is the spec's
pending-set invariant made executable). -/
def processAck (st : AckSt) (seq version : Nat) : AckSt :=
  match st.pending with
  | (s, _) :: rest =>
      if s = seq then
        let res := drainDeferred rest st.deferredAcks version (st.ackOrder ++ [seq])
        { pending := res.1, deferredAcks := res.2.1,
          lastSyncedVersion := res.2.2.1, ackOrder := res.2.2.2 }
      else
        { st with deferredAcks := st.deferredAcks ++ [(seq, version)] }
  | [] => { st with deferredAcks := st.deferredAcks ++ [(seq, version)] }

/-- Processing a sequence of acknowledgements in arrival order. -/
def processAcks (st : AckSt) : List (Nat × Nat) → AckSt
  | [] => st
  | (s, v) :: rest => processAcks (processAck st s v) rest

/-! ## Command history engine (`UndoRedoManager`)

The manager's mutable object graph is embedded with explicit
references: `history` holds ids into `store` (JS arrays hold object
references, and both `combine` and the batch commands mutate the
referenced command objects in place), `currentIndex` is the cursor,
`doc` is the document the command closures mutate, and `notifies`
counts `notifyHistoryChange()` calls. -/

/-- The `state` object captured by a command: the union of the fields
the registered factories read (`textEdit` uses `element`, `newText`,
`oldText`; `styleChange` uses `element`, `property`, `newValue`,
`oldValue`; `createCommand` stamps `timestamp`). -/
structure PrimState where
  element : Nat := 0
  newText : String := ""
  oldText : String := ""
  property : String := ""
  newValue : String := ""
  oldValue : String := ""
  timestamp : Int := 0
deriving DecidableEq

/-- The part of the live page the registered command factories read and
write: per-element `textContent` and per-element/per-property style
values. -/
structure Doc where
  texts : List (Nat × String) := []
  styles : List ((Nat × String) × String) := []
deriving DecidableEq

def getText (d : Doc) (element : Nat) : String :=
  (lookupA d.texts element).getD ""

def setText (d : Doc) (element : Nat) (text : String) : Doc :=
  { d with texts := setA d.texts element text }

def getStyle (d : Doc) (element : Nat) (property : String) : String :=
  (lookupA d.styles (element, property)).getD ""

def setStyle (d : Doc) (element : Nat) (property value : String) : Doc :=
  { d with styles := setA d.styles (element, property) value }

/-- A command factory as registered through
`UndoRedoManager.registerCommand(type, factory)`: `execute`/`undo` take
the command's captured state and act on the document, returning the JS
boolean; `combine` is the optional fusion rule. -/
structure Factory where
  execute : PrimState → Doc → Bool × Doc
  undo : PrimState → Doc → Bool × Doc
  combine : Option (PrimState → PrimState → Option PrimState) := none

/-- The factory registry `this.commandFactories` (fixed after
`setupCommandFactories` plus any `registerCommand` calls). -/
abbrev Reg : Type := List (String × Factory)

/-- The `textEdit` factory from `setupCommandFactories`: execute/undo
set the element's text (always `true`), and consecutive edits of the
same element whose timestamps differ by less than 1000 ms combine,
keeping the older `oldText`. -/
def textEditFactory : Factory where
  execute := fun state d => (true, setText d state.element state.newText)
  undo := fun state d => (true, setText d state.element state.oldText)
  combine := some (fun oldState newState =>
    if newState.timestamp - oldState.timestamp < 1000 ∧
        oldState.element = newState.element then
      some { newState with oldText := oldState.oldText }
    else none)

/-- The `styleChange` factory from `setupCommandFactories`: no
`combine`. -/
def styleChangeFactory : Factory where
  execute := fun state d => (true, setStyle d state.element state.property state.newValue)
  undo := fun state d => (true, setStyle d state.element state.property state.oldValue)

/-- A structural command registered through the `registerCommand`
extension API: a text edit that validates its recorded state against
the current document and reports failure (the spec's `PathNotFound`
condition) by returning `false` without mutating anything, instead of
applying at a stale location. -/
def guardedTextFactory : Factory where
  execute := fun state d =>
    match lookupA d.texts state.element with
    | some t => if t = state.oldText then (true, setText d state.element state.newText)
                else (false, d)
    | none => (false, d)
  undo := fun state d =>
    match lookupA d.texts state.element with
    | some t => if t = state.newText then (true, setText d state.element state.oldText)
                else (false, d)
    | none => (false, d)

/-- The registry produced by `setupCommandFactories`, restricted to the
factories the claims exercise, plus the `guardedText` registered
command. -/
def baseReg : Reg :=
  [("textEdit", textEditFactory),
   ("styleChange", styleChangeFactory),
   ("guardedText", guardedTextFactory)]

/-- A non-batch command object as returned by `createCommand`:
`ctype` is its `type` tag, `cstate` the creation-time `state` object
captured by the `execute`/`undo` closures, and `state` the spread copy
`{...state, timestamp: Date.now()}` that `combine` reads and rewrites. -/
structure PrimCmd where
  ctype : String
  cstate : PrimState
  state : PrimState
deriving DecidableEq

/-- A command held by the manager: either a `createCommand` command or
a `createBatchCommand` composite whose closures iterate the captured
`operations` array (the members of a gesture are `createCommand`
commands accumulated by `addToBatch`). -/
inductive Cmd where
  | prim (p : PrimCmd)
  | batch (operations : List PrimCmd) (timestamp : Int)
deriving DecidableEq

/-- `createCommand(type, state)` at time `now`: the closures keep the
original `state` object, the `state` field gets the timestamped copy.
(For a type with no registered factory the source throws; every type
used below is registered.) -/
def createCommand (ctype : String) (state : PrimState) (now : Int) : Cmd :=
  Cmd.prim ⟨ctype, state, { state with timestamp := now }⟩

/-- Command-object references, as a shared store. -/
abbrev Store : Type := List (Nat × Cmd)

/-- Running one member command's `execute()` closure: the factory
resolved for its type applied to its captured creation state. -/
def primExecute (reg : Reg) (p : PrimCmd) (d : Doc) : Bool × Doc :=
  match lookupA reg p.ctype with
  | some f => f.execute p.cstate d
  | none => (false, d)

/-- Running one member command's `undo()` closure. -/
def primUndo (reg : Reg) (p : PrimCmd) (d : Doc) : Bool × Doc :=
  match lookupA reg p.ctype with
  | some f => f.undo p.cstate d
  | none => (false, d)

/-- JS `operations.every(op => step(op))`: short-circuits at the first
member returning `false`, keeping the document mutations made so far. -/
def runAll (stepFn : PrimCmd → Doc → Bool × Doc) :
    List PrimCmd → Doc → Bool × Doc
  | [], d => (true, d)
  | p :: rest, d =>
      let r := stepFn p d
      if r.1 then runAll stepFn rest r.2 else (false, r.2)

/-- A command's `execute()`: for a batch,
`operations.every(op => op.execute())` in the array's current order. -/
def cmdExecute (reg : Reg) (c : Cmd) (d : Doc) : Bool × Doc :=
  match c with
  | Cmd.prim p => primExecute reg p d
  | Cmd.batch operations _ => runAll (primExecute reg) operations d

/-- A command's `undo()`: for a batch,
`operations.reverse().every(op => op.undo())` — note that
`Array.prototype.reverse` mutates the captured array in place, which
`undo` below records in the store. -/
def cmdUndoEval (reg : Reg) (c : Cmd) (d : Doc) : Bool × Doc :=
  match c with
  | Cmd.prim p => primUndo reg p d
  | Cmd.batch operations _ => runAll (primUndo reg) operations.reverse d

/-- The redo-truncation step at the head of `execute(command)`:
`if (currentIndex < history.length - 1) history.splice(currentIndex + 1)`. -/
def spliceRedo (m_history : List Nat) (m_currentIndex : Int) : List Nat :=
  if m_currentIndex < (m_history.length : Int) - 1 then
    spliceKeep m_history (m_currentIndex + 1)
  else m_history

/-- The combination test in `execute(command)`: the entry at the
cursor exists, shares the new command's `type`, its factory has a
`combine`, and `combine(prevCommand.state, command.state)` is non-null;
the result is the fused command stored back into `prevCommand`. -/
def fuseTop (reg : Reg) (store : Store) (hist : List Nat) (ci : Int) (c : Cmd) :
    Option (Nat × Cmd) :=
  match listGet hist ci with
  | none => none
  | some pid =>
    match lookupA store pid, c with
    | some (Cmd.prim p), Cmd.prim q =>
        if p.ctype = q.ctype then
          match lookupA reg p.ctype with
          | some f =>
            match f.combine with
            | some comb =>
                (comb p.state q.state).map (fun st1 => (pid, Cmd.prim ⟨p.ctype, p.cstate, st1⟩))
            | none => none
          | none => none
        else none
    | _, _ => none

/-- The manager state: `history`/`currentIndex`/`maxHistorySize`/
`batchOperations`/`snapshots` from the constructor, plus the shared
command store, the document, and the count of `notifyHistoryChange`
calls. -/
structure Mgr where
  store : Store := []
  nextId : Nat := 0
  history : List Nat := []
  currentIndex : Int := -1
  maxHistorySize : Nat := 100
  batchOperations : List (Nat × String × List PrimCmd) := []
  snapshots : List (Nat × Int) := []
  doc : Doc := {}
  notifies : Nat := 0
deriving DecidableEq

/-- The constructor state (`history = []`, `currentIndex = -1`,
`maxHistorySize = 100`). -/
def initMgr : Mgr := {}

/-- `UndoRedoManager.execute(command)`: truncate the redo tail, try to
combine with the entry at the cursor (on success only the fused state
and the document change), otherwise run the command and, when it
returns `true`, push it, advance the cursor, enforce the size bound by
shifting the oldest entry, and notify. -/
def execute (reg : Reg) (m : Mgr) (command : Cmd) : Mgr :=
  let hist1 := spliceRedo m.history m.currentIndex
  match fuseTop reg m.store hist1 m.currentIndex command with
  | some (pid, fused) =>
      let r := cmdExecute reg command m.doc
      { m with history := hist1, store := setA m.store pid fused, doc := r.2 }
  | none =>
      let r := cmdExecute reg command m.doc
      if r.1 then
        let id := m.nextId
        let hist2 := hist1 ++ [id]
        let shift := decide (hist2.length > m.maxHistorySize)
        { m with
          store := m.store ++ [(id, command)]
          nextId := id + 1
          history := if shift then hist2.drop 1 else hist2
          currentIndex := if shift then m.currentIndex else m.currentIndex + 1
          doc := r.2
          notifies := m.notifies + 1 }
      else { m with history := hist1, doc := r.2 }

def canUndo (m : Mgr) : Bool := decide (0 ≤ m.currentIndex)

def canRedo (m : Mgr) : Bool := decide (m.currentIndex < (m.history.length : Int) - 1)

/-- `UndoRedoManager.undo()`: `false` when `canUndo` fails; otherwise
run the cursor command's `undo()` (for a batch this first reverses its
captured `operations` array in place) and, only when it returns `true`,
decrement the cursor and notify.  Document mutations made by a failing
`undo()` are kept, as in the source. -/
def undo (reg : Reg) (m : Mgr) : Bool × Mgr :=
  if canUndo m then
    match listGet m.history m.currentIndex with
    | none => (false, m)
    | some id =>
      match lookupA m.store id with
      | none => (false, m)
      | some command =>
        let store2 :=
          match command with
          | Cmd.batch operations ts => setA m.store id (Cmd.batch operations.reverse ts)
          | Cmd.prim _ => m.store
        let r := cmdUndoEval reg command m.doc
        if r.1 then
          (true, { m with
                   store := store2, doc := r.2,
                   currentIndex := m.currentIndex - 1, notifies := m.notifies + 1 })
        else (false, { m with store := store2, doc := r.2 })
  else (false, m)

/-- `UndoRedoManager.redo()`: `false` when `canRedo` fails; otherwise
run `history[currentIndex + 1].execute()` and, only when it returns
`true`, increment the cursor and notify. -/
def redo (reg : Reg) (m : Mgr) : Bool × Mgr :=
  if canRedo m then
    match listGet m.history (m.currentIndex + 1) with
    | none => (false, m)
    | some id =>
      match lookupA m.store id with
      | none => (false, m)
      | some command =>
        let r := cmdExecute reg command m.doc
        if r.1 then
          (true, { m with
                   doc := r.2,
                   currentIndex := m.currentIndex + 1, notifies := m.notifies + 1 })
        else (false, { m with doc := r.2 })
  else (false, m)

/-- `startBatch(batchId, type)`. -/
def startBatch (m : Mgr) (batchId : Nat) (btype : String) : Mgr :=
  { m with batchOperations := setA m.batchOperations batchId (btype, []) }

/-- `addToBatch(batchId, command)`: appends to the batch buffer when
the batch exists. -/
def addToBatch (m : Mgr) (batchId : Nat) (command : PrimCmd) : Mgr :=
  match lookupA m.batchOperations batchId with
  | some (t, operations) =>
      { m with batchOperations := setA m.batchOperations batchId (t, operations ++ [command]) }
  | none => m

/-- The `batchTypes` combiners: `drag`/`resize` keep only the last
operation; `default` (and, via the `||` fallback, any unknown type)
keeps the buffer as is. -/
def batchCombine (btype : String) (operations : List PrimCmd) : List PrimCmd :=
  if btype = "drag" ∨ btype = "resize" then
    match operations.getLast? with
    | some op => [op]
    | none => []
  else operations

/-- `createBatchCommand(operations)` at time `now`. -/
def createBatchCommand (operations : List PrimCmd) (now : Int) : Cmd :=
  Cmd.batch operations now

/-- `endBatch(batchId)`: combine the buffer, execute the resulting
composite command through `execute` when non-empty, and delete the
buffer. -/
def endBatch (reg : Reg) (now : Int) (m : Mgr) (batchId : Nat) : Mgr :=
  match lookupA m.batchOperations batchId with
  | none => m
  | some (t, ops) =>
      let operations := batchCombine t ops
      let m1 := if operations.isEmpty then m
                else execute reg m (createBatchCommand operations now)
      { m1 with batchOperations := removeA m1.batchOperations batchId }

/-- `clearHistory()`. -/
def clearHistory (m : Mgr) : Mgr :=
  { m with history := [], currentIndex := -1, notifies := m.notifies + 1 }

/-- `setMaxHistorySize(size)`: shifts the oldest entries (decrementing
the cursor each time) until the history fits. -/
def setMaxHistorySize (m : Mgr) (size : Nat) : Mgr :=
  let k := m.history.length - size
  { m with
    maxHistorySize := size,
    history := m.history.drop k,
    currentIndex := m.currentIndex - (k : Int) }

/-- `createSnapshot()` with the generated id made explicit: records the
current `currentIndex`. -/
def createSnapshot (m : Mgr) (snapshotId : Nat) : Mgr :=
  { m with snapshots := setA m.snapshots snapshotId m.currentIndex }

/-- The first `restoreSnapshot` loop
(`while (currentIndex > snapshot.historyIndex) this.undo()`), with an
explicit fuel bound since a failing `undo()` loops forever. -/
def undoLoop (reg : Reg) (target : Int) : Nat → Mgr → Mgr
  | 0, m => m
  | fuel + 1, m =>
      if target < m.currentIndex then undoLoop reg target fuel (undo reg m).2 else m

/-- The second `restoreSnapshot` loop
(`while (currentIndex < snapshot.historyIndex) this.redo()`). -/
def redoLoop (reg : Reg) (target : Int) : Nat → Mgr → Mgr
  | 0, m => m
  | fuel + 1, m =>
      if m.currentIndex < target then redoLoop reg target fuel (redo reg m).2 else m

/-- `restoreSnapshot(snapshotId)`: `false` for an unknown id; otherwise
runs the undo loop then the redo loop and returns `true`. -/
def restoreSnapshot (reg : Reg) (m : Mgr) (snapshotId : Nat) (fuel : Nat) :
    Bool × Mgr :=
  match lookupA m.snapshots snapshotId with
  | none => (false, m)
  | some target =>
      let m1 := undoLoop reg target fuel m
      let m2 := redoLoop reg target fuel m1
      (true, m2)

/-- The precondition of the restore loops, made executable: every
`undo()`/`redo()` call the loops would issue (up to the given fuel)
returns `true`. -/
def restoreOk (reg : Reg) : Nat → Int → Mgr → Bool
  | 0, _, _ => true
  | fuel + 1, target, m =>
      if target < m.currentIndex then
        (undo reg m).1 && restoreOk reg fuel target (undo reg m).2
      else if m.currentIndex < target then
        (redo reg m).1 && restoreOk reg fuel target (redo reg m).2
      else true

/-- One public call to the manager, for reachable-state properties. -/
inductive MAction where
  | exec (command : Cmd)
  | undoA
  | redoA
  | startB (batchId : Nat) (btype : String)
  | addB (batchId : Nat) (command : PrimCmd)
  | endB (batchId : Nat) (now : Int)
  | clearH
  | setMax (size : Nat)

def stepM (reg : Reg) (m : Mgr) : MAction → Mgr
  | MAction.exec c => execute reg m c
  | MAction.undoA => (undo reg m).2
  | MAction.redoA => (redo reg m).2
  | MAction.startB bid t => startBatch m bid t
  | MAction.addB bid p => addToBatch m bid p
  | MAction.endB bid now => endBatch reg now m bid
  | MAction.clearH => clearHistory m
  | MAction.setMax n => setMaxHistorySize m n

def runM (reg : Reg) (m : Mgr) : List MAction → Mgr
  | [] => m
  | a :: rest => runM reg (stepM reg m a) rest

/-- Whether an action is a `setMaxHistorySize` call. -/
def isSetMax : MAction → Bool
  | MAction.setMax _ => true
  | _ => false

/-! ## Claim-specific definitions and concrete scenario inputs -/

/-- The creation-time data of a `createCommand` command (used for batch
members, which `addToBatch` accumulates as command objects). -/
def createPrim (ctype : String) (state : PrimState) (now : Int) : PrimCmd :=
  ⟨ctype, state, { state with timestamp := now }⟩

/-- A `textEdit` command for element `el` setting `newT` over `oldT`,
created at time `now`. -/
def mkTextEdit (el : Nat) (newT oldT : String) (now : Int) : Cmd :=
  Cmd.prim (createPrim "textEdit" { element := el, newText := newT, oldText := oldT } now)

/-- Structural well-formedness of a manager state: the cursor is inside
the history (or `-1`), the next command id is fresh, and the configured
bound admits at least one entry. -/
def wfMgr (m : Mgr) : Prop :=
  -1 ≤ m.currentIndex ∧ m.currentIndex < (m.history.length : Int) ∧
    lookupA m.store m.nextId = none ∧ 1 ≤ m.maxHistorySize

instance (m : Mgr) : Decidable (wfMgr m) := by
  unfold wfMgr; infer_instance

/-- Whether `undo()` would select a command whose `undo` routine
returns `false` on the current document. -/
def selUndoFails (reg : Reg) (m : Mgr) : Bool :=
  match listGet m.history m.currentIndex with
  | some id =>
      match lookupA m.store id with
      | some command => !(cmdUndoEval reg command m.doc).1
      | none => false
  | none => false

/-- Whether `redo()` would select a command whose `execute` routine
returns `false` on the current document. -/
def selRedoFails (reg : Reg) (m : Mgr) : Bool :=
  match listGet m.history (m.currentIndex + 1) with
  | some id =>
      match lookupA m.store id with
      | some command => !(cmdExecute reg command m.doc).1
      | none => false
  | none => false

/-- The pending sequence numbers, in map order. -/
def pendingSeqs (st : AckSt) : List Nat := st.pending.map Prod.fst

/-- Scenario (C1): client B's concurrent insert of node Y at path
`[0]`. -/
def insertYbyB : Change :=
  { ctype := "insert", path := [0], value := "Y", author := "B", localSeq := 1 }

/-- Scenario (C1): client A's insert of node X at path `[0]`, ordered
first by the server. -/
def insertXbyA : Change :=
  { ctype := "insert", path := [0], value := "X", author := "A", localSeq := 1 }

/-- Scenario (C2): client B's update under path `[2]`. -/
def updateColorB : Change :=
  { ctype := "update", path := [2, 0], value := "red", author := "B", localSeq := 1 }

/-- Scenario (C2): the pending local delete of the node at path `[2]`,
an ancestor of the update's path. -/
def deleteNodeA : Change :=
  { ctype := "delete", path := [2], author := "A", localSeq := 3 }

/-- Scenario (C4): three buffered changes. -/
def chOne : Change := { ctype := "update", path := [0], value := "a", author := "A", localSeq := 1 }

def chTwo : Change := { ctype := "update", path := [1], value := "b", author := "A", localSeq := 2 }

def chThree : Change := { ctype := "update", path := [2], value := "c", author := "A", localSeq := 3 }

/-- Scenario (C5): first step of a two-step gesture, `color: black →
red` on element 0. -/
def dragStep1 : PrimCmd :=
  createPrim "styleChange"
    { element := 0, property := "color", newValue := "red", oldValue := "black" } 10

/-- Scenario (C5): second step of the gesture, `color: red → blue`. -/
def dragStep2 : PrimCmd :=
  createPrim "styleChange"
    { element := 0, property := "color", newValue := "blue", oldValue := "red" } 11

/-- Scenario (C5): the manager state after
`startBatch(1); addToBatch(c1); addToBatch(c2); endBatch(1)`. -/
def c5run : Mgr :=
  runM baseReg initMgr
    [MAction.startB 1 "default", MAction.addB 1 dragStep1,
     MAction.addB 1 dragStep2, MAction.endB 1 12]

def c5afterUndo : Mgr := (undo baseReg c5run).2

def c5afterRedo : Mgr := (redo baseReg c5afterUndo).2

/-- Scenario (C6): a guarded text edit on element 0 (`a0 → A`). -/
def guardEditA : PrimCmd :=
  createPrim "guardedText" { element := 0, newText := "A", oldText := "a0" } 20

/-- Scenario (C6): a guarded text edit on element 1 (`b0 → B`). -/
def guardEditB : PrimCmd :=
  createPrim "guardedText" { element := 1, newText := "B", oldText := "b0" } 21

/-- Scenario (C6): a plain text edit on element 0 (`A → C`). -/
def plainEditC : PrimCmd :=
  createPrim "textEdit" { element := 0, newText := "C", oldText := "A" } 22

/-- Scenario (C6): a guarded edit whose target element does not exist,
so its `execute` reports failure. -/
def guardMissing : PrimCmd :=
  createPrim "guardedText" { element := 9, newText := "x", oldText := "y" } 23

/-- Scenario (C6): initial document with elements 0 and 1. -/
def c6start : Mgr := { initMgr with doc := { texts := [(0, "a0"), (1, "b0")] } }

/-- Scenario (C6): batch the two guarded edits, then run a composite
command whose second constituent fails, leaving element 0 at `C` with
the batch command still recorded as fully applied. -/
def c6run : Mgr :=
  runM baseReg c6start
    [MAction.startB 2 "default", MAction.addB 2 guardEditA,
     MAction.addB 2 guardEditB, MAction.endB 2 25,
     MAction.exec (Cmd.batch [plainEditC, guardMissing] 26)]

def c6afterUndo : Mgr := (undo baseReg c6run).2

/-- Scenario (C10): a history of two guarded commands, neither of whose
routines can succeed on the empty document. -/
def c10mgr : Mgr :=
  { store :=
      [(0, createCommand "guardedText" { element := 0, newText := "A", oldText := "z" } 0),
       (1, createCommand "guardedText" { element := 1, newText := "B", oldText := "z" } 0)]
    nextId := 2
    history := [0, 1]
    currentIndex := 0 }

/-- Scenario (C3): a pending set holding operations 4 and 5, receiving
the acknowledgement for 5 before the one for 4. -/
def ackStW : AckSt :=
  { pending := [(4, chOne), (5, chTwo)], deferredAcks := [],
    lastSyncedVersion := 3, ackOrder := [] }

/-! ## Theorems -/

/-- Draining deferred acknowledgements removes pending operations only
from the front: the acknowledged order concatenated with what remains
pending is invariant. -/
theorem drainDeferred_keeps_order (pend : List (Nat × Change)) :
    ∀ (defs : List (Nat × Nat)) (lsv : Nat) (order : List Nat),
      (drainDeferred pend defs lsv order).2.2.2
          ++ (drainDeferred pend defs lsv order).1.map Prod.fst
        = order ++ pend.map Prod.fst := by
  induction pend with
  | nil => intro defs lsv order; simp [drainDeferred]
  | cons p rest ih =>
    intro defs lsv order
    obtain ⟨s, c⟩ := p
    simp only [drainDeferred]
    cases h : findAck defs s with
    | some v => rw [ih]; simp
    | none => simp

/-- One acknowledgement step preserves the decomposition of the
original pending sequence into acknowledged prefix plus pending
remainder. -/
theorem processAck_keeps_order (st : AckSt) (seq version : Nat) :
    (processAck st seq version).ackOrder ++ pendingSeqs (processAck st seq version)
      = st.ackOrder ++ pendingSeqs st := by
  unfold processAck pendingSeqs
  cases hp : st.pending with
  | nil => simp
  | cons p rest =>
    obtain ⟨s, c⟩ := p
    by_cases hs : s = seq
    · simp only [hs, if_true]
      rw [drainDeferred_keeps_order]
      simp
    · simp [hs]

/-- Any sequence of acknowledgement arrivals preserves the
decomposition. -/
theorem processAcks_keeps_order (acks : List (Nat × Nat)) : ∀ st : AckSt,
    (processAcks st acks).ackOrder ++ pendingSeqs (processAcks st acks)
      = st.ackOrder ++ pendingSeqs st := by
  induction acks with
  | nil => intro st; rfl
  | cons a rest ih =>
    intro st
    obtain ⟨s, v⟩ := a
    simp only [processAcks]
    exact (ih (processAck st s v)).trans (processAck_keeps_order st s v)

/-- An acknowledgement that does not match the head of the pending set
is deferred and changes nothing else. -/
theorem processAck_head_mismatch (st : AckSt) (n v m0 : Nat) (c : Change)
    (hhead : st.pending.head? = some (m0, c)) (hne : m0 ≠ n) :
    processAck st n v = { st with deferredAcks := st.deferredAcks ++ [(n, v)] } := by
  unfold processAck
  cases hp : st.pending with
  | nil => rfl
  | cons p rest =>
    obtain ⟨s, c0⟩ := p
    have hs : s = m0 := by
      rw [hp] at hhead
      simpa using congrArg (fun o => Option.map Prod.fst o) hhead
    subst hs
    simp [hne]

/-- Claim C1: the transform is required to tie-break concurrent inserts
at the same path by `(author, localSeq)` order, shifting the
later-ordered insert's index (B's index from 0 to 1).  The source's
`OperationalTransform.transform` returns the change unchanged: B's
concurrent insert at path `[0]`, transformed against A's pending
earlier-ordered insert at `[0]`, keeps index 0 and is not shifted to
index 1, so the two clients do not converge to `[X, Y]`. -/
theorem c1_transform_returns_change_unchanged :
    OperationalTransform.transform insertYbyB [insertXbyA] = insertYbyB ∧
    (OperationalTransform.transform insertYbyB [insertXbyA]).path = [0] ∧
    (OperationalTransform.transform insertYbyB [insertXbyA]).path ≠ [1] := by
  refine ⟨rfl, rfl, ?_⟩
  decide

/-- Claim C2: an operation transformed against a pending local delete
of an ancestor (or equal) path is required to become a no-op reported
as a `Dropped` outcome.  The source's transform returns the operation
unchanged and `handleRemoteChange` applies it as-is at the stale path:
the update under the deleted node `[2]` is appended to the applied
changes untouched, and no dropped outcome exists anywhere in the
code. -/
theorem c2_transform_never_drops :
    OperationalTransform.transform updateColorB [deleteNodeA] = updateColorB ∧
    (handleRemoteChange { pendingChanges := [(3, deleteNodeA)] } updateColorB 7).applied
      = [updateColorB] ∧
    (handleRemoteChange { pendingChanges := [(3, deleteNodeA)] } updateColorB 7).lastSyncedVersion
      = 7 :=
  ⟨rfl, rfl, rfl⟩

/-- Claim C3: the pending set is emptied strictly in `localSeq` order
with no gaps — the acknowledged sequence prepended to the remaining
pending sequence always reconstructs the original pending order, so
removals happen only at the front — and an acknowledgement for
`localSeq = n` arriving while `localSeq = n - 1` is still pending is
deferred: the pending set, `lastSyncedVersion` and the applied order
are unchanged.  (Spec-modelled: `src/` only declares the
`pendingChanges` map and dispatches `sync` messages to an undefined
`handleSync`; the acknowledgement path is modelled from the spec's
pending-set invariant.) -/
theorem c3_pending_emptied_in_order (st : AckSt) (acks : List (Nat × Nat))
    (n v : Nat) (c : Change) (hn : 1 ≤ n)
    (hhead : st.pending.head? = some (n - 1, c)) :
    ((processAcks st acks).ackOrder ++ pendingSeqs (processAcks st acks)
        = st.ackOrder ++ pendingSeqs st) ∧
    processAck st n v = { st with deferredAcks := st.deferredAcks ++ [(n, v)] } :=
  ⟨processAcks_keeps_order acks st,
   processAck_head_mismatch st n v (n - 1) c hhead (by omega)⟩

/-- Witness for C3: operations 4 and 5 pending, acknowledgement for 5
arriving first. -/
theorem c3_pending_emptied_in_order_witness :
    ((processAcks ackStW [(5, 9), (4, 8)]).ackOrder
        ++ pendingSeqs (processAcks ackStW [(5, 9), (4, 8)])
      = ackStW.ackOrder ++ pendingSeqs ackStW) ∧
    processAck ackStW 5 9 = { ackStW with deferredAcks := ackStW.deferredAcks ++ [(5, 9)] } :=
  c3_pending_emptied_in_order ackStW [(5, 9), (4, 8)] 5 9 chOne (by decide) (by decide)

/-- Claim C4: when sending the buffered batch fails, `syncChanges`
unshifts the exact failed batch onto the front of the outbound buffer —
ahead of the changes queued while the send was awaited, in the original
order — and requests a resynchronization. -/
theorem c4_failed_batch_requeued_at_front (st : CollabSt)
    (queuedMeanwhile : List Change) (hne : st.changeBuffer ≠ []) :
    (syncChanges st false queuedMeanwhile).changeBuffer
        = st.changeBuffer ++ queuedMeanwhile ∧
    (syncChanges st false queuedMeanwhile).resyncRequested = true := by
  have hb : st.changeBuffer.isEmpty = false := by
    cases h : st.changeBuffer with
    | nil => exact absurd h hne
    | cons a l => rfl
  constructor <;> simp [syncChanges, sendMessage, hb]

/-- Witness for C4 at a two-change batch with one change queued during
the failed send. -/
theorem c4_failed_batch_requeued_at_front_witness :
    (syncChanges { changeBuffer := [chOne, chTwo] } false [chThree]).changeBuffer
        = [chOne, chTwo] ++ [chThree] ∧
    (syncChanges { changeBuffer := [chOne, chTwo] } false [chThree]).resyncRequested = true :=
  c4_failed_batch_requeued_at_front { changeBuffer := [chOne, chTwo] } [chThree] (by decide)

/-- Claim C5: `endBatch` pushes exactly one composite command whose
apply runs the members forward and whose undo runs their undos in
reverse; the claim further requires a subsequent `redo()` to re-apply
the members in the original forward order.  Because the batch command's
`undo` calls `operations.reverse()`, which reverses the captured array
in place, the redo after an undo replays the members in reversed order:
the gesture `color: black → red → blue` redoes to `red`, not `blue`,
and the stored composite now holds the members reversed. -/
theorem c5_redo_replays_in_reversed_order :
    c5run.history.length = 1 ∧
    c5run.currentIndex = 0 ∧
    getStyle c5run.doc 0 "color" = "blue" ∧
    (undo baseReg c5run).1 = true ∧
    getStyle c5afterUndo.doc 0 "color" = "black" ∧
    lookupA c5afterUndo.store 0 = some (Cmd.batch [dragStep2, dragStep1] 12) ∧
    (redo baseReg c5afterUndo).1 = true ∧
    getStyle c5afterRedo.doc 0 "color" = "red" ∧
    getStyle c5afterRedo.doc 0 "color" ≠ "blue" := by
  decide

/-- Claim C6: a failed apply or undo is required to leave the document
unchanged (validate before mutating).  The batch command's routines are
`operations.every(...)`, which mutates as it goes and short-circuits at
the first failure: executing a composite whose second constituent fails
keeps the first constituent's mutation (element 0 becomes `C`), and the
subsequent failing `undo()` of the recorded batch undoes its second
constituent (element 1 back to `b0`) before failing on the first,
leaving the document strictly between the batch's constituent
commands. -/
theorem c6_failed_undo_partially_mutates :
    getText c6run.doc 0 = "C" ∧
    getText c6run.doc 1 = "B" ∧
    c6run.history.length = 1 ∧
    (undo baseReg c6run).1 = false ∧
    getText c6afterUndo.doc 1 = "b0" ∧
    getText c6afterUndo.doc 0 = "C" ∧
    c6afterUndo.doc ≠ c6run.doc := by
  decide

/-- Counterexample to claim C8 as stated: after `execute` of one
command followed by a successful `undo()`, the cursor is `-1` while the
history still holds one entry, so `currentIndex = -1` does not hold
exactly when the history is empty, and `0 <= currentIndex` fails at a
reachable state. -/
theorem c8_cursor_minus_one_with_nonempty_history :
    (runM baseReg initMgr [MAction.exec (mkTextEdit 0 "a" "" 0), MAction.undoA]).currentIndex
        = -1 ∧
    (runM baseReg initMgr [MAction.exec (mkTextEdit 0 "a" "" 0), MAction.undoA]).history
        ≠ [] := by
  decide

/-- Claim C10: an `undo()` (resp. `redo()`) whose selected command's
undo (resp. execute) routine returns `false` returns `false` and leaves
the history stack untouched: same entry references in the same order,
same cursor, and no history-change notification (the document and the
command objects themselves may have been mutated by the failing
routine, which the claim does not cover). -/
theorem c10_failed_undo_redo_leave_stack_unchanged (reg : Reg) (m : Mgr) :
    (canUndo m = true → selUndoFails reg m = true →
      (undo reg m).1 = false ∧ (undo reg m).2.history = m.history ∧
      (undo reg m).2.currentIndex = m.currentIndex ∧
      (undo reg m).2.notifies = m.notifies) ∧
    (canRedo m = true → selRedoFails reg m = true →
      (redo reg m).1 = false ∧ (redo reg m).2.history = m.history ∧
      (redo reg m).2.currentIndex = m.currentIndex ∧
      (redo reg m).2.notifies = m.notifies) := by
  constructor
  · intro hcu hfail
    unfold selUndoFails at hfail
    simp only [undo, hcu, if_true]
    cases hg : listGet m.history m.currentIndex with
    | none => rw [hg] at hfail; simp at hfail
    | some id =>
      rw [hg] at hfail
      cases hs : lookupA m.store id with
      | none => simp [hs] at hfail
      | some command =>
        simp only [hs, Bool.not_eq_true'] at hfail
        simp [hs, hfail]
  · intro hcr hfail
    unfold selRedoFails at hfail
    simp only [redo, hcr, if_true]
    cases hg : listGet m.history (m.currentIndex + 1) with
    | none => rw [hg] at hfail; simp at hfail
    | some id =>
      rw [hg] at hfail
      cases hs : lookupA m.store id with
      | none => simp [hs] at hfail
      | some command =>
        simp only [hs, Bool.not_eq_true'] at hfail
        simp [hs, hfail]

/-- Updating a key makes it the lookup result. -/
theorem lookupA_setA_self {κ α : Type} [DecidableEq κ] (l : List (κ × α)) (k : κ) (v : α) :
    lookupA (setA l k v) k = some v := by
  induction l with
  | nil => simp [setA, lookupA]
  | cons p rest ih =>
    obtain ⟨k1, v1⟩ := p
    by_cases h : k1 = k
    · simp [setA, h, lookupA]
    · simp [setA, h, lookupA, ih]

/-- Appending a fresh binding makes it visible to lookup. -/
theorem lookupA_append_fresh {κ α : Type} [DecidableEq κ] (l : List (κ × α)) (k : κ) (v : α)
    (h : lookupA l k = none) : lookupA (l ++ [(k, v)]) k = some v := by
  induction l with
  | nil => simp [lookupA]
  | cons p rest ih =>
    obtain ⟨k1, v1⟩ := p
    by_cases hk : k1 = k
    · simp [lookupA, hk] at h
    · simp only [List.cons_append, lookupA, if_neg hk] at h ⊢
      exact ih h

/-- Indexing a snoc at the original length yields the appended
element. -/
theorem listGet_append_last {α : Type} (l : List α) (x : α) :
    listGet (l ++ [x]) ((l.length : Int)) = some x := by
  unfold listGet
  rw [if_pos (by omega)]
  simp [List.get?_concat_length]

/-- A successful JS index is in bounds. -/
theorem listGet_some_bounds {α : Type} (l : List α) (i : Int) (a : α)
    (h : listGet l i = some a) : 0 ≤ i ∧ i < (l.length : Int) := by
  unfold listGet at h
  split at h
  · have hb := (List.get?_eq_some.1 h).1
    omega
  · cases h

/-- The redo-truncation leaves exactly the applied prefix: for a cursor
inside the history, the truncated history has length `cursor + 1`. -/
theorem spliceRedo_length_eq (hist : List Nat) (ci : Int)
    (h1 : -1 ≤ ci) (h2 : ci < (hist.length : Int)) :
    ((spliceRedo hist ci).length : Int) = ci + 1 := by
  unfold spliceRedo spliceKeep
  split
  · simp only [List.length_take]
    split <;> omega
  · omega

/-- The redo-truncation does nothing when the cursor is at the top. -/
theorem spliceRedo_stay (hist : List Nat) (ci : Int)
    (h : ¬ ci < (hist.length : Int) - 1) : spliceRedo hist ci = hist := by
  unfold spliceRedo
  rw [if_neg (by omega)]

/-- Setting an element's text makes it the element's text. -/
theorem getText_setText (d : Doc) (el : Nat) (s : String) :
    getText (setText d el s) el = s := by
  simp [getText, setText, lookupA_setA_self]

/-- An `undo()` call either succeeds and moves the cursor down by one,
or fails and leaves the cursor where it was. -/
theorem undo_cursor_cases (reg : Reg) (m : Mgr) :
    ((undo reg m).1 = true ∧ (undo reg m).2.currentIndex = m.currentIndex - 1) ∨
    ((undo reg m).1 = false ∧ (undo reg m).2.currentIndex = m.currentIndex) := by
  simp only [undo]
  split
  · split
    · right; simp
    · split
      · right; simp
      · split
        · left; simp
        · right; simp
  · right; simp

/-- A `redo()` call either succeeds and moves the cursor up by one, or
fails and leaves the cursor where it was. -/
theorem redo_cursor_cases (reg : Reg) (m : Mgr) :
    ((redo reg m).1 = true ∧ (redo reg m).2.currentIndex = m.currentIndex + 1) ∨
    ((redo reg m).1 = false ∧ (redo reg m).2.currentIndex = m.currentIndex) := by
  simp only [redo]
  split
  · split
    · right; simp
    · split
      · right; simp
      · split
        · left; simp
        · right; simp
  · right; simp

/-- The undo loop is the identity when the cursor is already at or
below the target. -/
theorem undoLoop_stay (reg : Reg) (target : Int) (fuel : Nat) (m : Mgr)
    (h : ¬ target < m.currentIndex) : undoLoop reg target fuel m = m := by
  cases fuel <;> simp [undoLoop, h]

/-- The redo loop is the identity when the cursor is already at or
above the target. -/
theorem redoLoop_stay (reg : Reg) (target : Int) (fuel : Nat) (m : Mgr)
    (h : ¬ m.currentIndex < target) : redoLoop reg target fuel m = m := by
  cases fuel <;> simp [redoLoop, h]

/-- With enough fuel and every issued `undo()` succeeding, the undo
loop lands the cursor exactly on the target. -/
theorem undoLoop_reaches (reg : Reg) (target : Int) :
    ∀ (fuel : Nat) (m : Mgr), target ≤ m.currentIndex →
      (m.currentIndex - target).toNat ≤ fuel →
      restoreOk reg fuel target m = true →
      (undoLoop reg target fuel m).currentIndex = target := by
  intro fuel
  induction fuel with
  | zero =>
    intro m hle hb hok
    simp only [undoLoop]
    omega
  | succ f ih =>
    intro m hle hb hok
    simp only [undoLoop]
    by_cases hlt : target < m.currentIndex
    · rw [if_pos hlt]
      simp only [restoreOk, if_pos hlt, Bool.and_eq_true] at hok
      rcases undo_cursor_cases reg m with ⟨ht, hdec⟩ | ⟨hf, _⟩
      · exact ih (undo reg m).2 (by omega) (by omega) hok.2
      · rw [hf] at hok; exact absurd hok.1 (by simp)
    · rw [if_neg hlt]; omega

/-- With enough fuel and every issued `redo()` succeeding, the redo
loop lands the cursor exactly on the target. -/
theorem redoLoop_reaches (reg : Reg) (target : Int) :
    ∀ (fuel : Nat) (m : Mgr), m.currentIndex ≤ target →
      (target - m.currentIndex).toNat ≤ fuel →
      restoreOk reg fuel target m = true →
      (redoLoop reg target fuel m).currentIndex = target := by
  intro fuel
  induction fuel with
  | zero =>
    intro m hle hb hok
    simp only [redoLoop]
    omega
  | succ f ih =>
    intro m hle hb hok
    simp only [redoLoop]
    by_cases hlt : m.currentIndex < target
    · rw [if_pos hlt]
      simp only [restoreOk, if_neg (show ¬ target < m.currentIndex by omega),
        if_pos hlt, Bool.and_eq_true] at hok
      rcases redo_cursor_cases reg m with ⟨ht, hinc⟩ | ⟨hf, _⟩
      · exact ih (redo reg m).2 (by omega) (by omega) hok.2
      · rw [hf] at hok; exact absurd hok.1 (by simp)
    · rw [if_neg hlt]; omega

/-- Claim C9: `restoreSnapshot` on a recorded snapshot id terminates
with result `true` and the cursor at the snapshot's recorded history
index, provided every `undo()`/`redo()` it issues succeeds (the fuel
bound makes the `while` loops explicit; the distance to the target
bounds the number of iterations).  Moreover a failing `undo()` or
`redo()` leaves the cursor unchanged, so the loops make no progress on
failure and the success precondition is necessary for termination. -/
theorem c9_restore_terminates_at_snapshot (reg : Reg) (m : Mgr)
    (snapshotId : Nat) (target : Int) (fuel : Nat)
    (hsnap : lookupA m.snapshots snapshotId = some target)
    (hfuel : (m.currentIndex - target).natAbs ≤ fuel)
    (hok : restoreOk reg fuel target m = true) :
    ((restoreSnapshot reg m snapshotId fuel).1 = true ∧
      (restoreSnapshot reg m snapshotId fuel).2.currentIndex = target) ∧
    (∀ m1 : Mgr, (undo reg m1).1 = false →
      (undo reg m1).2.currentIndex = m1.currentIndex) ∧
    (∀ m1 : Mgr, (redo reg m1).1 = false →
      (redo reg m1).2.currentIndex = m1.currentIndex) := by
  refine ⟨?_, ?_, ?_⟩
  · simp only [restoreSnapshot, hsnap]
    by_cases hdir : target ≤ m.currentIndex
    · have h1 := undoLoop_reaches reg target fuel m hdir (by omega) hok
      rw [redoLoop_stay reg target fuel _ (by omega)]
      exact ⟨trivial, h1⟩
    · rw [undoLoop_stay reg target fuel m (by omega)]
      exact ⟨trivial, redoLoop_reaches reg target fuel m (by omega) (by omega) hok⟩
  · intro m1 hf
    rcases undo_cursor_cases reg m1 with ⟨ht, _⟩ | ⟨_, heq⟩
    · rw [ht] at hf; cases hf
    · exact heq
  · intro m1 hf
    rcases redo_cursor_cases reg m1 with ⟨ht, _⟩ | ⟨_, heq⟩
    · rw [ht] at hf; cases hf
    · exact heq

/-- Claim C7: two `textEdit` commands on the same element executed in
sequence with timestamps less than 1000 ms apart fuse into the existing
history entry: the second `execute` appends no entry and leaves
`currentIndex` (indeed the whole history array) unchanged, and a
subsequent `undo()` succeeds and restores the element's text to its
value from before the first edit, not the intermediate text.  The state
is assumed well-formed and the first command is assumed not to fuse
with an older history entry (it starts the entry the second edit fuses
into). -/
theorem c7_textedit_fuses_within_window (m0 : Mgr) (el : Nat) (t1 t2 : Int)
    (txt0 txt1 txt2 : String)
    (hwf : wfMgr m0)
    (hold : getText m0.doc el = txt0)
    (horder : t1 ≤ t2) (hwin : t2 - t1 < 1000)
    (hnofuse : fuseTop baseReg m0.store (spliceRedo m0.history m0.currentIndex)
        m0.currentIndex (mkTextEdit el txt1 txt0 t1) = none) :
    (execute baseReg (execute baseReg m0 (mkTextEdit el txt1 txt0 t1))
        (mkTextEdit el txt2 txt1 t2)).history
      = (execute baseReg m0 (mkTextEdit el txt1 txt0 t1)).history ∧
    (execute baseReg (execute baseReg m0 (mkTextEdit el txt1 txt0 t1))
        (mkTextEdit el txt2 txt1 t2)).currentIndex
      = (execute baseReg m0 (mkTextEdit el txt1 txt0 t1)).currentIndex ∧
    (undo baseReg (execute baseReg (execute baseReg m0 (mkTextEdit el txt1 txt0 t1))
        (mkTextEdit el txt2 txt1 t2))).1 = true ∧
    getText (undo baseReg (execute baseReg (execute baseReg m0 (mkTextEdit el txt1 txt0 t1))
        (mkTextEdit el txt2 txt1 t2))).2.doc el = getText m0.doc el := by
  obtain ⟨hge, hltl, hfresh, hmax⟩ := hwf
  set c1 : Cmd := mkTextEdit el txt1 txt0 t1 with hc1
  set c2 : Cmd := mkTextEdit el txt2 txt1 t2 with hc2
  set hist1 : List Nat := spliceRedo m0.history m0.currentIndex with hh1
  have hlen1 : (hist1.length : Int) = m0.currentIndex + 1 :=
    spliceRedo_length_eq m0.history m0.currentIndex hge hltl
  have hexec1 : ∀ d : Doc, cmdExecute baseReg c1 d = (true, setText d el txt1) :=
    fun d => rfl
  have hexec2 : ∀ d : Doc, cmdExecute baseReg c2 d = (true, setText d el txt2) :=
    fun d => rfl
  have hm1 : execute baseReg m0 c1 =
      { m0 with
        store := m0.store ++ [(m0.nextId, c1)]
        nextId := m0.nextId + 1
        history := if decide ((hist1 ++ [m0.nextId]).length > m0.maxHistorySize)
          then (hist1 ++ [m0.nextId]).drop 1 else hist1 ++ [m0.nextId]
        currentIndex := if decide ((hist1 ++ [m0.nextId]).length > m0.maxHistorySize)
          then m0.currentIndex else m0.currentIndex + 1
        doc := setText m0.doc el txt1
        notifies := m0.notifies + 1 } := by
    simp only [execute, ← hh1, hnofuse, hexec1]
    simp
  set m1 : Mgr := execute baseReg m0 c1 with hm1def
  have hstore1 : m1.store = m0.store ++ [(m0.nextId, c1)] := by rw [hm1]
  have hdoc1 : m1.doc = setText m0.doc el txt1 := by rw [hm1]
  have hget1 : listGet m1.history m1.currentIndex = some m0.nextId := by
    rw [hm1]
    by_cases hsh : (hist1 ++ [m0.nextId]).length > m0.maxHistorySize
    · simp only [hsh, decide_true_eq_true, decide_eq_true_eq, if_pos hsh]
      have hlong : 1 ≤ hist1.length := by
        simp only [List.length_append, List.length_cons, List.length_nil] at hsh
        omega
      rw [List.drop_append_of_le_length hlong]
      have hidx : m0.currentIndex = (((hist1.drop 1).length : Nat) : Int) := by
        rw [List.length_drop]
        omega
      rw [hidx]
      exact listGet_append_last _ _
    · simp only [decide_eq_true_eq, if_neg hsh]
      have hidx : m0.currentIndex + 1 = ((hist1.length : Nat) : Int) := by omega
      rw [hidx]
      exact listGet_append_last _ _
  have hcpos : 0 ≤ m1.currentIndex := by
    rw [hm1]
    by_cases hsh : (hist1 ++ [m0.nextId]).length > m0.maxHistorySize
    · simp only [decide_eq_true_eq, if_pos hsh]
      simp only [List.length_append, List.length_cons, List.length_nil] at hsh
      omega
    · simp only [decide_eq_true_eq, if_neg hsh]
      omega
  have hctop : m1.currentIndex = (m1.history.length : Int) - 1 := by
    rw [hm1]
    by_cases hsh : (hist1 ++ [m0.nextId]).length > m0.maxHistorySize
    · simp only [decide_eq_true_eq, if_pos hsh]
      simp only [List.length_drop, List.length_append, List.length_cons, List.length_nil]
      simp only [List.length_append, List.length_cons, List.length_nil] at hsh
      omega
    · simp only [decide_eq_true_eq, if_neg hsh]
      simp only [List.length_append, List.length_cons, List.length_nil]
      omega
  have hstay1 : spliceRedo m1.history m1.currentIndex = m1.history :=
    spliceRedo_stay _ _ (by omega)
  have hlook1 : lookupA m1.store m0.nextId = some c1 := by
    rw [hstore1]
    exact lookupA_append_fresh _ _ _ hfresh
  set fusedCmd : Cmd := Cmd.prim
    ⟨"textEdit",
     { element := el, newText := txt1, oldText := txt0 },
     { element := el, newText := txt2, oldText := txt0, timestamp := t2 }⟩ with hfc
  have hfuse2 : fuseTop baseReg m1.store m1.history m1.currentIndex c2
      = some (m0.nextId, fusedCmd) := by
    simp only [fuseTop, hget1, hlook1]
    simp only [hc1, hc2, hfc, mkTextEdit, createPrim]
    norm_num [baseReg, lookupA, textEditFactory]
    intro h
    omega
  have hund : ∀ d : Doc, cmdUndoEval baseReg fusedCmd d = (true, setText d el txt0) :=
    fun d => rfl
  have hm2 : execute baseReg m1 c2 =
      { m1 with
        store := setA m1.store m0.nextId fusedCmd
        doc := setText m1.doc el txt2 } := by
    conv_lhs => rw [execute.eq_def]
    simp only [hstay1, hfuse2, hexec2]
  set m2 : Mgr := execute baseReg m1 c2 with hm2def
  have hhist2 : m2.history = m1.history := by rw [hm2]
  have hcur2 : m2.currentIndex = m1.currentIndex := by rw [hm2]
  have hget2 : listGet m2.history m2.currentIndex = some m0.nextId := by
    rw [hhist2, hcur2]; exact hget1
  have hlook2 : lookupA m2.store m0.nextId = some fusedCmd := by
    rw [hm2]; exact lookupA_setA_self _ _ _
  have hcu2 : canUndo m2 = true := by
    unfold canUndo
    rw [hcur2]
    simpa using hcpos
  have hundo : undo baseReg m2 =
      (true, { m2 with
               doc := setText m2.doc el txt0
               currentIndex := m2.currentIndex - 1
               notifies := m2.notifies + 1 }) := by
    conv_lhs => rw [undo.eq_def]
    simp only [hcu2, if_true, hget2, hlook2, hfc, hund]
  refine ⟨hhist2, hcur2, ?_, ?_⟩
  · rw [hundo]
  · rw [hundo]
    simpa [getText_setText] using hold.symm

/-- Witness for C7: two edits of element 0 at timestamps 0 and 500 from
the initial manager state. -/
theorem c7_textedit_fuses_within_window_witness :
    (execute baseReg (execute baseReg initMgr (mkTextEdit 0 "a" "" 0))
        (mkTextEdit 0 "ab" "a" 500)).history
      = (execute baseReg initMgr (mkTextEdit 0 "a" "" 0)).history ∧
    (execute baseReg (execute baseReg initMgr (mkTextEdit 0 "a" "" 0))
        (mkTextEdit 0 "ab" "a" 500)).currentIndex
      = (execute baseReg initMgr (mkTextEdit 0 "a" "" 0)).currentIndex ∧
    (undo baseReg (execute baseReg (execute baseReg initMgr (mkTextEdit 0 "a" "" 0))
        (mkTextEdit 0 "ab" "a" 500))).1 = true ∧
    getText (undo baseReg (execute baseReg (execute baseReg initMgr (mkTextEdit 0 "a" "" 0))
        (mkTextEdit 0 "ab" "a" 500))).2.doc 0 = getText initMgr.doc 0 :=
  c7_textedit_fuses_within_window initMgr 0 0 500 "" "a" "ab"
    (by decide) (by decide) (by decide) (by decide) (by decide)

/-- Witness for C9: snapshot taken at cursor 0, one undo later restored
with one redo. -/
theorem c9_restore_terminates_at_snapshot_witness :
    ((restoreSnapshot baseReg
        (undo baseReg (createSnapshot (execute baseReg initMgr (mkTextEdit 0 "a" "" 0)) 7)).2
        7 1).1 = true ∧
      (restoreSnapshot baseReg
        (undo baseReg (createSnapshot (execute baseReg initMgr (mkTextEdit 0 "a" "" 0)) 7)).2
        7 1).2.currentIndex = 0) ∧
    (∀ m1 : Mgr, (undo baseReg m1).1 = false →
      (undo baseReg m1).2.currentIndex = m1.currentIndex) ∧
    (∀ m1 : Mgr, (redo baseReg m1).1 = false →
      (redo baseReg m1).2.currentIndex = m1.currentIndex) :=
  c9_restore_terminates_at_snapshot baseReg
    (undo baseReg (createSnapshot (execute baseReg initMgr (mkTextEdit 0 "a" "" 0)) 7)).2
    7 0 1 (by decide) (by decide) (by decide)

/-- Witness for C10: a state whose cursor command fails to undo and
whose next command fails to execute. -/
theorem c10_failed_undo_redo_leave_stack_unchanged_witness :
    ((undo baseReg c10mgr).1 = false ∧ (undo baseReg c10mgr).2.history = c10mgr.history ∧
      (undo baseReg c10mgr).2.currentIndex = c10mgr.currentIndex ∧
      (undo baseReg c10mgr).2.notifies = c10mgr.notifies) ∧
    ((redo baseReg c10mgr).1 = false ∧ (redo baseReg c10mgr).2.history = c10mgr.history ∧
      (redo baseReg c10mgr).2.currentIndex = c10mgr.currentIndex ∧
      (redo baseReg c10mgr).2.notifies = c10mgr.notifies) :=
  ⟨(c10_failed_undo_redo_leave_stack_unchanged baseReg c10mgr).1 (by decide) (by decide),
   (c10_failed_undo_redo_leave_stack_unchanged baseReg c10mgr).2 (by decide) (by decide)⟩

/-- The cursor-below-length invariant. -/
def cursorInv (m : Mgr) : Prop := m.currentIndex < (m.history.length : Int)

/-- The cursor lower bound that holds while `setMaxHistorySize` is
never called. -/
def cursorLB (m : Mgr) : Prop := -1 ≤ m.currentIndex

/-- `undo()` never changes the history array of ids. -/
theorem undo_history_same (reg : Reg) (m : Mgr) : (undo reg m).2.history = m.history := by
  simp only [undo]
  split
  · split
    · rfl
    · split
      · rfl
      · split <;> rfl
  · rfl

/-- `redo()` never changes the history array of ids. -/
theorem redo_history_same (reg : Reg) (m : Mgr) : (redo reg m).2.history = m.history := by
  simp only [redo]
  split
  · split
    · rfl
    · split
      · rfl
      · split <;> rfl
  · rfl

/-- A successful `undo()` implies the cursor check passed. -/
theorem undo_true_canUndo (reg : Reg) (m : Mgr) (h : (undo reg m).1 = true) :
    0 ≤ m.currentIndex := by
  by_contra hc
  have hcu : canUndo m = false := by simp [canUndo]; omega
  simp [undo, hcu] at h

/-- A successful `redo()` implies the cursor check passed. -/
theorem redo_true_canRedo (reg : Reg) (m : Mgr) (h : (redo reg m).1 = true) :
    m.currentIndex < (m.history.length : Int) - 1 := by
  by_contra hc
  have hcr : canRedo m = false := by simp [canRedo]; omega
  simp [redo, hcr] at h

/-- `execute` preserves the cursor-below-length invariant, from any
state, including the negative-index states `splice` handles by counting
from the end. -/
theorem cursorInv_execute (reg : Reg) (m : Mgr) (c : Cmd) (h : cursorInv m) :
    cursorInv (execute reg m c) := by
  unfold cursorInv at h ⊢
  have hsp : m.currentIndex < ((spliceRedo m.history m.currentIndex).length : Int) := by
    unfold spliceRedo spliceKeep
    split
    · simp only [List.length_take]
      split <;> omega
    · omega
  simp only [execute]
  cases hf : fuseTop reg m.store (spliceRedo m.history m.currentIndex) m.currentIndex c with
  | some pr =>
    obtain ⟨pid, fused⟩ := pr
    simpa using hsp
  | none =>
    by_cases hx : (cmdExecute reg c m.doc).1 = true
    · simp only [hx, if_true]
      split
      · rename_i hsh
        simp only [decide_eq_true_eq] at hsh
        simp only [List.length_drop, List.length_append, List.length_cons, List.length_nil]
        simp only [List.length_append, List.length_cons, List.length_nil] at hsh
        omega
      · rename_i hsh
        simp only [List.length_append, List.length_cons, List.length_nil]
        omega
    · simp only [Bool.not_eq_true] at hx
      simp only [hx, Bool.false_eq_true, if_false]
      simpa using hsp

/-- `execute` keeps the cursor at or above `-1`. -/
theorem cursorLB_execute (reg : Reg) (m : Mgr) (c : Cmd) (h : cursorLB m) :
    cursorLB (execute reg m c) := by
  unfold cursorLB at h ⊢
  simp only [execute]
  cases hf : fuseTop reg m.store (spliceRedo m.history m.currentIndex) m.currentIndex c with
  | some pr =>
    obtain ⟨pid, fused⟩ := pr
    simpa using h
  | none =>
    by_cases hx : (cmdExecute reg c m.doc).1 = true
    · simp only [hx, if_true]
      split
      · omega
      · omega
    · simp only [Bool.not_eq_true] at hx
      simp only [hx, Bool.false_eq_true, if_false]
      simpa using h

/-- `endBatch` preserves the cursor-below-length invariant. -/
theorem cursorInv_endBatch (reg : Reg) (now : Int) (m : Mgr) (bid : Nat)
    (h : cursorInv m) : cursorInv (endBatch reg now m bid) := by
  unfold endBatch
  cases hl : lookupA m.batchOperations bid with
  | none => exact h
  | some pr =>
    obtain ⟨t, ops⟩ := pr
    dsimp only
    split
    · exact h
    · exact cursorInv_execute reg m _ h

/-- `endBatch` keeps the cursor at or above `-1`. -/
theorem cursorLB_endBatch (reg : Reg) (now : Int) (m : Mgr) (bid : Nat)
    (h : cursorLB m) : cursorLB (endBatch reg now m bid) := by
  unfold endBatch
  cases hl : lookupA m.batchOperations bid with
  | none => exact h
  | some pr =>
    obtain ⟨t, ops⟩ := pr
    dsimp only
    split
    · exact h
    · exact cursorLB_execute reg m _ h

/-- Every public call preserves the cursor-below-length invariant. -/
theorem cursorInv_stepM (reg : Reg) (m : Mgr) (a : MAction) (h : cursorInv m) :
    cursorInv (stepM reg m a) := by
  cases a with
  | exec c => exact cursorInv_execute reg m c h
  | undoA =>
    show cursorInv (undo reg m).2
    unfold cursorInv at h ⊢
    rw [undo_history_same]
    rcases undo_cursor_cases reg m with ⟨_, he⟩ | ⟨_, he⟩ <;> rw [he] <;> omega
  | redoA =>
    show cursorInv (redo reg m).2
    unfold cursorInv at h ⊢
    rw [redo_history_same]
    rcases redo_cursor_cases reg m with ⟨ht, he⟩ | ⟨_, he⟩
    · have hcr := redo_true_canRedo reg m ht
      rw [he]; omega
    · rw [he]; omega
  | startB bid t => exact h
  | addB bid p =>
    show cursorInv (addToBatch m bid p)
    unfold addToBatch
    cases lookupA m.batchOperations bid with
    | none => exact h
    | some pr => obtain ⟨t, ops⟩ := pr; exact h
  | endB bid now => exact cursorInv_endBatch reg now m bid h
  | clearH =>
    show cursorInv (clearHistory m)
    unfold cursorInv
    simp [clearHistory]
  | setMax n =>
    show cursorInv (setMaxHistorySize m n)
    unfold cursorInv at h ⊢
    simp only [setMaxHistorySize, List.length_drop]
    omega

/-- Every public call other than `setMaxHistorySize` keeps the cursor
at or above `-1`. -/
theorem cursorLB_stepM (reg : Reg) (m : Mgr) (a : MAction)
    (hno : isSetMax a = false) (h : cursorLB m) : cursorLB (stepM reg m a) := by
  cases a with
  | exec c => exact cursorLB_execute reg m c h
  | undoA =>
    show cursorLB (undo reg m).2
    unfold cursorLB at h ⊢
    rcases undo_cursor_cases reg m with ⟨ht, he⟩ | ⟨_, he⟩
    · have := undo_true_canUndo reg m ht
      rw [he]; omega
    · rw [he]; omega
  | redoA =>
    show cursorLB (redo reg m).2
    unfold cursorLB at h ⊢
    rcases redo_cursor_cases reg m with ⟨_, he⟩ | ⟨_, he⟩ <;> rw [he] <;> omega
  | startB bid t => exact h
  | addB bid p =>
    show cursorLB (addToBatch m bid p)
    unfold addToBatch
    cases lookupA m.batchOperations bid with
    | none => exact h
    | some pr => obtain ⟨t, ops⟩ := pr; exact h
  | endB bid now => exact cursorLB_endBatch reg now m bid h
  | clearH =>
    show cursorLB (clearHistory m)
    unfold cursorLB
    simp [clearHistory]
  | setMax n => cases hno

/-- The cursor-below-length invariant holds along any run. -/
theorem cursorInv_runM (reg : Reg) (acts : List MAction) : ∀ m : Mgr,
    cursorInv m → cursorInv (runM reg m acts) := by
  induction acts with
  | nil => intro m h; exact h
  | cons a rest ih =>
    intro m h
    exact ih (stepM reg m a) (cursorInv_stepM reg m a h)

/-- The cursor lower bound holds along any run without
`setMaxHistorySize`. -/
theorem cursorLB_runM (reg : Reg) (acts : List MAction) : ∀ m : Mgr,
    (∀ a ∈ acts, isSetMax a = false) → cursorLB m → cursorLB (runM reg m acts) := by
  induction acts with
  | nil => intro m _ h; exact h
  | cons a rest ih =>
    intro m hno h
    exact ih (stepM reg m a) (fun b hb => hno b (List.mem_cons_of_mem a hb))
      (cursorLB_stepM reg m a (hno a (List.mem_cons_self a rest)) h)

/-- Claim C8, amended: at every state reachable from the initial
manager by `execute`, `undo`, `redo`, batch calls, `clearHistory` and
`setMaxHistorySize`, the cursor satisfies
`currentIndex < history.length`; when the call sequence contains no
`setMaxHistorySize`, additionally `-1 <= currentIndex`, and an empty
history forces `currentIndex = -1`.  The original claim's
`0 <= currentIndex` (with `-1` exactly on empty history) fails: `-1`
also marks the reachable fully-undone states with non-empty history,
and `setMaxHistorySize` can push the cursor below `-1`. -/
theorem c8_amended_cursor_invariant (reg : Reg) (acts : List MAction) :
    (runM reg initMgr acts).currentIndex < ((runM reg initMgr acts).history.length : Int) ∧
    ((∀ a ∈ acts, isSetMax a = false) →
      -1 ≤ (runM reg initMgr acts).currentIndex ∧
      ((runM reg initMgr acts).history = [] →
        (runM reg initMgr acts).currentIndex = -1)) := by
  have h1 : cursorInv (runM reg initMgr acts) :=
    cursorInv_runM reg acts initMgr (by unfold cursorInv initMgr; simp)
  refine ⟨h1, fun hno => ?_⟩
  have h2 : cursorLB (runM reg initMgr acts) :=
    cursorLB_runM reg acts initMgr hno (by unfold cursorLB initMgr; simp)
  unfold cursorInv at h1
  unfold cursorLB at h2
  refine ⟨h2, fun hemp => ?_⟩
  rw [hemp] at h1
  simp at h1
  omega

/-- Witness for C8 (amended) at a one-command run. -/
theorem c8_amended_cursor_invariant_witness :
    (runM baseReg initMgr [MAction.exec (mkTextEdit 1 "b" "" 0)]).currentIndex
        < ((runM baseReg initMgr [MAction.exec (mkTextEdit 1 "b" "" 0)]).history.length : Int) ∧
    (-1 ≤ (runM baseReg initMgr [MAction.exec (mkTextEdit 1 "b" "" 0)]).currentIndex ∧
      ((runM baseReg initMgr [MAction.exec (mkTextEdit 1 "b" "" 0)]).history = [] →
        (runM baseReg initMgr [MAction.exec (mkTextEdit 1 "b" "" 0)]).currentIndex = -1)) :=
  ⟨(c8_amended_cursor_invariant baseReg [MAction.exec (mkTextEdit 1 "b" "" 0)]).1,
   (c8_amended_cursor_invariant baseReg [MAction.exec (mkTextEdit 1 "b" "" 0)]).2
     (by intro a ha; simp at ha; rw [ha]; rfl)⟩


end AppBuilder
